import Mathlib

/-!
# Verification of the helm-mapkubeapis mapping engine

Shallow embedding of the two source files of the repository:

* `src/pkg/common/common.go` — `ReplaceManifestUnSupportedAPIs` and its helpers,
  modelling Go reference semantics explicitly: documents (Go `map[string]interface{}`)
  live in a `heap`, and the manifest slice is a `backing` array of heap indices
  together with a slice length, so that slice aliasing and in-place `append`
  deletion behave exactly as in Go.
* `src/pkg/v3/release.go` — the orchestrator's change detection, the
  `decodeManifests` loop over a YAML decoder stream, and `updateRelease`
  (where `var newRelease = origRelease` copies the pointer, so the "new" record
  aliases the old one).

External collaborators (the `golang.org/x/mod/semver` comparison and the
byte-level YAML codec of `gopkg.in/yaml.v3`) are modelled from the spec, as
marked on their definitions.
-/

/-- A YAML scalar or nested mapping, the `interface{}` values stored in a
decoded manifest document. Only the shapes exercised by the engine are
modelled: strings and nested mappings. -/
inductive Value where
  | vstr (s : String)
  | vmap (fields : List (String × Value))

/-- A decoded manifest document: Go's `map[string]interface{}`, modelled as an
association list with unique keys (first binding wins on lookup, as for a Go
map, which cannot hold duplicate keys). -/
abbrev Doc := List (String × Value)

mutual

/-- Structural equality of values, the per-value part of `reflect.DeepEqual`. -/
def Value.beq : Value → Value → Bool
  | .vstr a, .vstr b => a == b
  | .vmap a, .vmap b => fieldsBeq a b
  | _, _ => false

/-- Structural equality of document field lists. -/
def fieldsBeq : List (String × Value) → List (String × Value) → Bool
  | [], [] => true
  | (k1, v1) :: t1, (k2, v2) :: t2 => k1 == k2 && Value.beq v1 v2 && fieldsBeq t1 t2
  | _, _ => false

end

/-- `reflect.DeepEqual` on `[]map[string]interface{}` (release.go line 61):
length plus element-wise structural equality. -/
def docsBeq : List Doc → List Doc → Bool
  | [], [] => true
  | d1 :: t1, d2 :: t2 => fieldsBeq d1 d2 && docsBeq t1 t2
  | _, _ => false

/-- Go map read `m[k]`: the value bound to `k`, if any. -/
def docLookup : Doc → String → Option Value
  | [], _ => none
  | (k1, v1) :: rest, k => if k1 = k then some v1 else docLookup rest k

/-- Go map write `m[k] = v`: replace the existing binding or add one. -/
def docSet : Doc → String → Value → Doc
  | [], k, v => [(k, v)]
  | (k1, v1) :: rest, k, v =>
      if k1 = k then (k, v) :: rest else (k1, v1) :: docSet rest k v

/-- The string content of field `k`, when the field holds a string. A Go
comparison `m[k] == s` (with `s : string`) is true exactly when the field is
present with dynamic type `string` and that content. -/
def getStr (d : Doc) (k : String) : Option String :=
  match docLookup d k with
  | some (.vstr s) => some s
  | _ => none

/-- common.go line 98/116/119: `fmt.Sprintf("%v/%v", group, version)`. The
separator is emitted unconditionally, also for the empty (core) group. -/
def composeAPI (group version : String) : String :=
  group ++ "/" ++ version

/-- common.go lines 107/118: the manifest matches when both its `apiVersion`
and its `kind` field equal the composed strings. -/
def matchesDoc (d : Doc) (api kind : String) : Bool :=
  getStr d "apiVersion" == some api && getStr d "kind" == some kind

/-! ## Semantic versions

`golang.org/x/mod/semver` is an external dependency, not part of src/. -/

/-- Modelled from the spec: a parsed semantic version, "major, then minor,
then patch, pre-release tags lower than release". -/
structure Semver where
  major : Nat
  minor : Nat
  patch : Nat
  pre : Option String
deriving DecidableEq

/-- Three-way comparison on naturals. -/
def natCompare (a b : Nat) : Ordering :=
  if a < b then .lt else if b < a then .gt else .eq

/-- Modelled from the spec: a release version compares above any pre-release
of the same numeric triple. -/
def preCompare : Option String → Option String → Ordering
  | none, none => .eq
  | none, some _ => .gt
  | some _, none => .lt
  | some a, some b => compare a b

/-- Modelled from the spec: `semver.Compare` precedence ordering — major,
then minor, then patch, then pre-release. -/
def semverCompare (a b : Semver) : Ordering :=
  (natCompare a.major b.major).then
    ((natCompare a.minor b.minor).then
      ((natCompare a.patch b.patch).then (preCompare a.pre b.pre)))

/-- Split a character list on a separator character. -/
def splitOnChar (c : Char) (cs : List Char) : List (List Char) :=
  cs.foldr
    (fun ch acc =>
      if ch = c then [] :: acc
      else
        match acc with
        | h :: t => (ch :: h) :: t
        | [] => [[ch]])
    [[]]

/-- Read a non-empty all-digit character list as a natural number. -/
def digitsToNat (cs : List Char) : Option Nat :=
  match cs with
  | [] => none
  | _ =>
      cs.foldl
        (fun acc c =>
          match acc with
          | none => none
          | some n => if c.isDigit then some (n * 10 + (c.toNat - 48)) else none)
        (some 0)

/-- One to three dot-separated numeric parts; missing minor/patch read as 0. -/
def parseParts : List (List Char) → Option (Nat × Nat × Nat)
  | [p1] => (digitsToNat p1).map fun a => (a, 0, 0)
  | [p1, p2] =>
      match digitsToNat p1, digitsToNat p2 with
      | some a, some b => some (a, b, 0)
      | _, _ => none
  | [p1, p2, p3] =>
      match digitsToNat p1, digitsToNat p2, digitsToNat p3 with
      | some a, some b, some c => some (a, b, c)
      | _, _, _ => none
  | _ => none

/-- Modelled from the spec: `semver.IsValid`/parsing for version strings of
the form `v<major>[.<minor>[.<patch>]][-<pre>]`; anything else is invalid
(`parseSemver` returns `none` exactly when `semver.IsValid` is false). -/
def parseSemver (s : String) : Option Semver :=
  match s.data with
  | 'v' :: rest =>
      let mainPart := rest.takeWhile (fun c => c ≠ '-')
      let prePart := rest.dropWhile (fun c => c ≠ '-')
      let pre : Option String :=
        match prePart with
        | [] => none
        | _ :: tail => some (String.mk tail)
      match parseParts (splitOnChar '.' mainPart) with
      | some (a, b, c) => some ⟨a, b, c, pre⟩
      | none => none
  | _ => none

example : parseSemver "v1.16" = some ⟨1, 16, 0, none⟩ := by rfl
example : parseSemver "v1.18.0" = some ⟨1, 18, 0, none⟩ := by rfl
example : parseSemver "1.18.0" = none := by rfl
example : semverCompare ⟨1, 16, 0, none⟩ ⟨1, 18, 0, none⟩ = .lt := by rfl
example : semverCompare ⟨1, 16, 0, none⟩ ⟨1, 14, 0, none⟩ = .gt := by rfl

/-! ## Mapping rules (`pkg/mapping` metadata, consumed by common.go) -/

/-- `{group, version, kind}` triple identifying one Kubernetes API surface. -/
structure APIIdentifier where
  group : String
  version : String
  kind : String
deriving DecidableEq

/-- One mapping rule of the mapping file. -/
structure Mapping where
  deprecatedAPI : APIIdentifier
  newAPI : APIIdentifier
  deprecatedInVersion : String
  removedInVersion : String
deriving DecidableEq

/-- common.go lines 82–86: `DeprecatedInVersion` takes precedence as the
threshold when non-empty, otherwise `RemovedInVersion` is used. -/
def thresholdOf (m : Mapping) : String :=
  if m.deprecatedInVersion ≠ "" then m.deprecatedInVersion else m.removedInVersion

/-- The deprecated API string the rule matches against (common.go line 98). -/
def depString (m : Mapping) : String :=
  composeAPI m.deprecatedAPI.group m.deprecatedAPI.version

/-- The replacement API string the rule rewrites to (common.go line 119). -/
def newString (m : Mapping) : String :=
  composeAPI m.newAPI.group m.newAPI.version

/-! ## The rule engine with Go reference semantics

`ReplaceManifestUnSupportedAPIs` starts with `var modifiedManifest = origManifest`
(common.go line 59): both variables are slice headers over the same backing
array, and every element is a Go map, a reference into a shared heap. The
state below records the heap of documents, the shared backing array of heap
indices (its length never changes: the in-place `append` at line 109 always
fits in place) and the current length of the `modifiedManifest` slice. -/

structure ReplaceState where
  heap : List Doc
  backing : List Nat
  len : Nat

/-- Errors surfaced (or, for `panicSliceBounds`, the runtime panic raised by
the slice expression `modifiedManifest[index+1:]` when `index+1` exceeds the
current slice length). -/
inductive RunErr where
  | invalidClusterVersion
  | invalidRuleVersion
  | panicSliceBounds
deriving DecidableEq

/-- The in-place `append(m[:index], m[index+1:]...)` of common.go line 109:
elements `index+1 … len-1` shift one slot left inside the same backing array;
slots from `len-1` on keep their old (now stale) contents. -/
def shiftDown (backing : List Nat) (i len : Nat) : List Nat :=
  backing.mapIdx fun j x =>
    if i ≤ j ∧ j + 1 < len then backing.getD (j + 1) 0 else x

/-- One iteration of the removal loop (common.go lines 106–111). `range`
iterates over the slice header captured at loop entry, so the element read at
index `i` is the current backing-array slot `i`, while the `append` applies to
the reassigned, possibly shorter, `modifiedManifest`. Go panics on
`m[index+1:]` when `index+1` exceeds the current slice length. -/
def removalStep (api kind : String) (heap : List Doc) (st : List Nat × Nat)
    (i : Nat) : Except RunErr (List Nat × Nat) :=
  match st.1.get? i with
  | none => .ok st
  | some id =>
      if matchesDoc (heap.getD id []) api kind then
        if st.2 < i + 1 then .error .panicSliceBounds
        else .ok (shiftDown st.1 i st.2, st.2 - 1)
      else .ok st

/-- The removal loop of common.go lines 106–111, iterating over the indices of
the slice as it was when the loop started. -/
def removalLoop (api kind : String) (heap : List Doc) (backing : List Nat)
    (len0 : Nat) : Except RunErr (List Nat × Nat) :=
  (List.range len0).foldlM (removalStep api kind heap) (backing, len0)

/-- The rewrite loop of common.go lines 115–123: each matching document's
`apiVersion` map entry is overwritten in place (mutating the shared heap). -/
def rewriteHeap (api kind newApi : String) (heap : List Doc) (ids : List Nat) :
    List Doc :=
  ids.foldl
    (fun h id =>
      if matchesDoc (h.getD id []) api kind then
        h.set id (docSet (h.getD id []) "apiVersion" (.vstr newApi))
      else h)
    heap

/-- The body of one rule application after the version gate (common.go lines
98–124). Removal is chosen when `supportedAPI.Kind == "" || supportedAPI.Group
== ""` (line 103). -/
def applyMappingBody (st : ReplaceState) (m : Mapping) : Except RunErr ReplaceState :=
  if m.newAPI.kind = "" ∨ m.newAPI.group = "" then
    match removalLoop (depString m) m.deprecatedAPI.kind st.heap st.backing st.len with
    | .error e => .error e
    | .ok (b, l) => .ok { st with backing := b, len := l }
  else
    .ok { st with
            heap := rewriteHeap (depString m) m.deprecatedAPI.kind (newString m)
                      st.heap (st.backing.take st.len) }

/-- One full rule application (common.go lines 78–130): threshold selection
and validity check, the version gate (`continue` when the threshold compares
greater than the cluster version), then the removal or rewrite body. -/
def applyMapping (kv : Semver) (st : ReplaceState) (m : Mapping) :
    Except RunErr ReplaceState :=
  match parseSemver (thresholdOf m) with
  | none => .error .invalidRuleVersion
  | some thr =>
      if semverCompare thr kv = .gt then .ok st
      else applyMappingBody st m

/-- The initial state: the caller's slice over the decoded documents. -/
def initState (docs : List Doc) : ReplaceState :=
  ⟨docs, List.range docs.length, docs.length⟩

/-- common.go lines 58–133, `ReplaceManifestUnSupportedAPIs`: validate the
cluster version, then fold the rules in file order over the shared state.
Loading the map file and querying the server version are external
collaborators; the rules and the version string are taken as inputs. -/
def ReplaceManifestUnSupportedAPIs (origManifest : List Doc)
    (mappings : List Mapping) (kubeVersionStr : String) :
    Except RunErr ReplaceState :=
  match parseSemver kubeVersionStr with
  | none => .error .invalidClusterVersion
  | some kv => mappings.foldlM (applyMapping kv) (initState origManifest)

/-- The returned `modifiedManifest` slice: the live prefix of the backing
array, dereferenced through the heap. -/
def modifiedView (st : ReplaceState) : List Doc :=
  (st.backing.take st.len).map fun id => st.heap.getD id []

/-- The caller's `origManifest` slice after the call: the same backing array
at its original full length, dereferenced through the (mutated) heap. -/
def origCallerView (st : ReplaceState) : List Doc :=
  st.backing.map fun id => st.heap.getD id []

/-- The document sequence produced by a successful rule application. -/
def finalModifiedDocs (docs : List Doc) (mappings : List Mapping) (v : String) :
    Option (List Doc) :=
  match ReplaceManifestUnSupportedAPIs docs mappings v with
  | .ok st => some (modifiedView st)
  | .error _ => none

/-! ## The orchestrator's change detection (release.go lines 56–80) -/

/-- The observable outcome of `MapReleaseWithUnSupportedAPIs` after rule
application: the no-op path, the dry-run report, an update carrying the new
document sequence, or an error. -/
inductive MapOutcome where
  | failed
  | noAPIncidence
  | dryRunReport
  | updated (newDocs : List Doc)

/-- release.go lines 56–80: run the rule engine, then compare
`reflect.DeepEqual(modifiedManifest, origManifest)` — both observed through
the shared, mutated state — and choose the no-op, dry-run or update path. -/
def mapReleaseOutcome (origManifest : List Doc) (mappings : List Mapping)
    (v : String) (dryRun : Bool) : MapOutcome :=
  match ReplaceManifestUnSupportedAPIs origManifest mappings v with
  | .error _ => .failed
  | .ok st =>
      if docsBeq (modifiedView st) (origCallerView st) then .noAPIncidence
      else if dryRun then .dryRunReport
      else .updated (modifiedView st)

/-! ## The manifest decode loop (release.go lines 118–146)

The byte-level YAML parser (`gopkg.in/yaml.v3`) is external to src/; a
manifest text is modelled as the stream of per-document results its decoder
produces, one per `decoder.Decode(&value)` call, with end of stream (`io.EOF`)
reached when the stream is exhausted. -/

/-- One `decoder.Decode(&value)` result: success with a possibly nil/empty
value, a non-EOF error leaving the value nil (the usual YAML failure mode), or
a non-EOF error with a non-empty partially-filled value. -/
inductive DecodeStep where
  | ok (value : Option Doc)
  | failed
  | failedWith (value : Doc)

/-- The loop body of `decodeManifests`, with the source's check order: first
the `io.EOF` break, then the nil/empty-value `continue`, then the `err != nil`
return, then the append. -/
def decodeLoop : List DecodeStep → List Doc → Except Unit (List Doc)
  | [], acc => .ok acc.reverse
  | .ok none :: rest, acc => decodeLoop rest acc
  | .ok (some d) :: rest, acc =>
      if d.isEmpty then decodeLoop rest acc else decodeLoop rest (d :: acc)
  | .failed :: rest, acc => decodeLoop rest acc
  | .failedWith d :: rest, acc =>
      if d.isEmpty then decodeLoop rest acc else .error ()

/-- release.go lines 119–146, `decodeManifests`. -/
def decodeManifests (steps : List DecodeStep) : Except Unit (List Doc) :=
  decodeLoop steps []

/-- Modelled from the spec: `encodeManifests` (release.go lines 149–168)
serializes the documents in order into a single `---`-prefixed stream, and the
external YAML codec's round-trip contract says parsing that stream back yields
exactly the encoded documents (only whitespace/formatting may differ), one
successful decoder step per document. -/
def reparseEncodedManifests (docs : List Doc) : List DecodeStep :=
  docs.map fun d => DecodeStep.ok (some d)

/-! ## The release version transition (release.go lines 85–108) -/

/-- Release status values used by the transition. -/
inductive ReleaseStatus where
  | deployed
  | superseded
deriving DecidableEq

/-- A Helm release record (the fields `updateRelease` touches). The Go value
is a `*release.Release`; `Info` is flattened into the record since the alias
`var newRelease = origRelease` shares the whole object anyway. -/
structure Release where
  name : String
  version : Nat
  manifest : String
  status : ReleaseStatus
  description : String
  lastDeployed : Nat
deriving DecidableEq

/-- A call into the release store, in invocation order. -/
inductive StoreOp where
  | update (r : Release)
  | create (r : Release)
deriving DecidableEq

/-- The store failures `updateRelease` can surface. -/
inductive StoreErr where
  | updateFailed
  | createFailed
deriving DecidableEq

/-- What `updateRelease` leaves behind: the store calls made in order, the
error returned (if any), and the record now observable through the caller's
`origRelease` pointer. -/
structure UpdateResult where
  trace : List StoreOp
  err : Option StoreErr
  origRef : Release
deriving DecidableEq

/-- common.go line 47. -/
def UpgradeDescription : String :=
  "Kubernetes deprecated API upgrade - DO NOT rollback from this version"

/-- release.go lines 85–108, `updateRelease`. The old record is mutated to
`superseded` and passed to the store's update; on success,
`var newRelease = origRelease` copies the *pointer* (line 96), so every
mutation building the new candidate is applied to the very record the caller
still references, which is then passed to the store's create. The booleans
say whether the respective store primitive fails. -/
def updateRelease (origRelease : Release) (modifiedManifest : String)
    (updateFails createFails : Bool) (now : Nat) : UpdateResult :=
  let r1 : Release := { origRelease with status := .superseded }
  if updateFails then ⟨[.update r1], some .updateFailed, r1⟩
  else
    let r2 : Release :=
      { r1 with
          manifest := modifiedManifest
          description := UpgradeDescription
          lastDeployed := now
          version := origRelease.version + 1
          status := .deployed }
    if createFails then ⟨[.update r1, .create r2], some .createFailed, r2⟩
    else ⟨[.update r1, .create r2], none, r2⟩

/-! ## Concrete fixtures -/

/-- Scenario A document: `{apiVersion: extensions/v1beta1, kind: Deployment,
spec: {...}}`. -/
def docX : Doc :=
  [("apiVersion", .vstr "extensions/v1beta1"), ("kind", .vstr "Deployment"),
   ("spec", .vmap [("replicas", .vstr "3")])]

/-- `docX` after rewriting to `apps/v1`; `spec` unchanged. -/
def docXmapped : Doc :=
  [("apiVersion", .vstr "apps/v1"), ("kind", .vstr "Deployment"),
   ("spec", .vmap [("replicas", .vstr "3")])]

/-- Scenario A rule with a fully-specified replacement API. -/
def ruleA2 : Mapping :=
  ⟨⟨"extensions", "v1beta1", "Deployment"⟩, ⟨"apps", "v1", "Deployment"⟩,
   "v1.16", ""⟩

/-- Scenario A rule exactly as the spec writes it: `newAPI {group: apps,
version: v1}` with no kind. -/
def ruleA : Mapping :=
  ⟨⟨"extensions", "v1beta1", "Deployment"⟩, ⟨"apps", "v1", ""⟩, "v1.16", ""⟩

/-- A removal rule: `newAPI` fully unset. -/
def remRule : Mapping :=
  ⟨⟨"extensions", "v1beta1", "Ingress"⟩, ⟨"", "", ""⟩, "", "v1.16"⟩

/-- A document matching `remRule`. -/
def docY : Doc :=
  [("apiVersion", .vstr "extensions/v1beta1"), ("kind", .vstr "Ingress")]

/-- A document matching no rule in this file. -/
def docZ : Doc :=
  [("apiVersion", .vstr "v1"), ("kind", .vstr "Service")]

/-- Rewrite chain, first rule: `groupb/v1` to `groupc/v1`. -/
def ruleBC : Mapping :=
  ⟨⟨"groupb", "v1", "Deployment"⟩, ⟨"groupc", "v1", "Deployment"⟩, "v1.16", ""⟩

/-- Rewrite chain, second rule: `groupa/v1` to `groupb/v1`. -/
def ruleAB : Mapping :=
  ⟨⟨"groupa", "v1", "Deployment"⟩, ⟨"groupb", "v1", "Deployment"⟩, "v1.16", ""⟩

/-- The chained rule set, in file order. -/
def chainRules : List Mapping := [ruleBC, ruleAB]

/-- A document matching `ruleAB`. -/
def docA : Doc := [("apiVersion", .vstr "groupa/v1"), ("kind", .vstr "Deployment")]

/-- `docA` after `ruleAB`. -/
def docB : Doc := [("apiVersion", .vstr "groupb/v1"), ("kind", .vstr "Deployment")]

/-- `docB` after `ruleBC`. -/
def docC : Doc := [("apiVersion", .vstr "groupc/v1"), ("kind", .vstr "Deployment")]

/-- A plain non-empty document for the codec claims. -/
def docP : Doc := [("kind", .vstr "ConfigMap")]

/-- Another plain non-empty document for the codec claims. -/
def docQ : Doc := [("kind", .vstr "Secret")]

/-! ## Per-document view of rewrite-only rule application

When every rule takes the rewrite branch, the slice never changes and each
document evolves independently; the helpers below express one rule pass as a
per-document fold, used to settle the idempotence claim. -/

/-- The effect of one rule on one document when the rule takes the rewrite
branch: skipped when its threshold is invalid or gated, otherwise the
`apiVersion` of a matching document is overwritten. -/
def stepDoc (kv : Semver) (m : Mapping) (d : Doc) : Doc :=
  match parseSemver (thresholdOf m) with
  | none => d
  | some thr =>
      if semverCompare thr kv = .gt then d
      else if matchesDoc d (depString m) m.deprecatedAPI.kind then
        docSet d "apiVersion" (.vstr (newString m))
      else d

/-- One full pass of a rewrite-only rule set over one document, rules in file
order. -/
def passDoc (kv : Semver) (rules : List Mapping) (d : Doc) : Doc :=
  rules.foldl (fun d m => stepDoc kv m d) d

/-- Every rule of the set takes the rewrite branch (common.go line 103 is
false: replacement kind and group both non-empty). -/
def RewriteOnly (rules : List Mapping) : Prop :=
  ∀ r ∈ rules, r.newAPI.kind ≠ "" ∧ r.newAPI.group ≠ ""

/-- Every rule's selected threshold is a valid version string. -/
def ValidThresholds (rules : List Mapping) : Prop :=
  ∀ r ∈ rules, (parseSemver (thresholdOf r)).isSome

/-- No rule's rewritten API string, together with its (unchanged) kind,
coincides with any rule's deprecated API string and kind — so a rewritten
document can never match a rule again. -/
def NoRematch (rules : List Mapping) : Prop :=
  ∀ r ∈ rules, ∀ r2 ∈ rules,
    ¬(newString r = depString r2 ∧
      r.deprecatedAPI.kind = r2.deprecatedAPI.kind)

/-- Every rule of the set leaves the document unchanged. -/
def ruleFixes (kv : Semver) (rules : List Mapping) (d : Doc) : Prop :=
  ∀ r ∈ rules, stepDoc kv r d = d

/-! ## Claim theorems -/

/-- C1: the claim says that when an applicable rewrite rule changes some
document's `apiVersion`, the deep-equality change detector reports a
difference and the orchestrator leaves the no-op path. The code violates
this: `modifiedManifest` aliases `origManifest` and the rewrite mutates the
shared maps in place, so `reflect.DeepEqual` compares the mutated sequence
with itself. On Scenario A's document and rule, the rule application rewrites
the document to `apps/v1` (second conjunct) — a change, as the third conjunct
records — yet the orchestrator takes the "no deprecated or removed APIs"
no-op path (first conjunct) and never updates the release. -/
theorem c1_aliasing_defeats_change_detection :
    mapReleaseOutcome [docX] [ruleA2] "v1.18.0" false = .noAPIncidence ∧
    finalModifiedDocs [docX] [ruleA2] "v1.18.0" = some [docXmapped] ∧
    docsBeq [docXmapped] [docX] = false :=
  ⟨rfl, rfl, rfl⟩

/-- C2: the claim says a removal rule matching N of M documents yields exactly
M−N documents with every match removed, including back-to-back matches. The
in-place index-based deletion violates this: on `[docY, docY, docZ]` (M = 3,
N = 2) removing the first match shifts the second into the already-visited
slot, so the output is `[docY, docZ]` — two documents, one of them still
matching. With the adjacent matches at the tail, `[docZ, docY, docY]`, the
second removal evaluates `modifiedManifest[3:]` on a slice of length 2 and
panics. -/
theorem c2_inplace_removal_skips_adjacent_matches :
    finalModifiedDocs [docY, docY, docZ] [remRule] "v1.18.0" = some [docY, docZ] ∧
    ReplaceManifestUnSupportedAPIs [docZ, docY, docY] [remRule] "v1.18.0"
      = .error .panicSliceBounds :=
  ⟨rfl, rfl⟩

/-- C3 counterexample: the claim says a matching document is removed only when
*both* group and kind of `newAPI` are empty, and that under Scenario A's rule
(`newAPI {group: apps, version: v1}`, no kind) the document is rewritten, not
removed. The code removes when kind *or* group is empty (common.go line 103):
under that exact rule the matching document is removed (output `[]`), not
rewritten to `apps/v1`. -/
theorem c3_counterexample :
    finalModifiedDocs [docX] [ruleA] "v1.18.0" = some [] ∧
    finalModifiedDocs [docX] [ruleA] "v1.18.0" ≠ some [docXmapped] := by
  refine ⟨rfl, fun h => ?_⟩
  have h2 : some ([] : List Doc) = some [docXmapped] :=
    (show finalModifiedDocs [docX] [ruleA] "v1.18.0" = some [] from rfl).symm.trans h
  exact List.cons_ne_nil docXmapped [] (Option.some.inj h2).symm

/-- C3 amended: a matching document is removed only when the rule's `newAPI`
has an empty kind *or* an empty group; when both are non-empty the rule takes
the rewrite branch, which leaves the slice (backing array and length)
untouched and only rewrites matching documents' `apiVersion` in the heap. -/
theorem c3_amended_rewrite_branch (m : Mapping) (kv thr : Semver)
    (st : ReplaceState) (hk : m.newAPI.kind ≠ "") (hg : m.newAPI.group ≠ "")
    (hp : parseSemver (thresholdOf m) = some thr) :
    applyMapping kv st m =
      .ok { st with
              heap := if semverCompare thr kv = .gt then st.heap
                else rewriteHeap (depString m) m.deprecatedAPI.kind (newString m)
                       st.heap (st.backing.take st.len) } := by
  unfold applyMapping
  rw [hp]
  by_cases hgt : semverCompare thr kv = .gt
  · simp [hgt]
  · simp only [hgt, if_neg, if_false]
    unfold applyMappingBody
    rw [if_neg (by simp [hk, hg])]

/-- C3 witness: Scenario A with a fully-specified `newAPI` (kind
`Deployment`): the rule takes the rewrite branch on `docX`. -/
theorem c3_amended_witness :
    applyMapping ⟨1, 18, 0, none⟩ (initState [docX]) ruleA2 =
      .ok { initState [docX] with
              heap := if semverCompare ⟨1, 16, 0, none⟩ ⟨1, 18, 0, none⟩ = .gt
                then (initState [docX]).heap
                else rewriteHeap (depString ruleA2) ruleA2.deprecatedAPI.kind
                       (newString ruleA2) (initState [docX]).heap
                       ((initState [docX]).backing.take (initState [docX]).len) } :=
  c3_amended_rewrite_branch ruleA2 ⟨1, 18, 0, none⟩ ⟨1, 16, 0, none⟩
    (initState [docX]) (by decide) (by decide) (by rfl)

/-- C4 counterexample: the claim says that for an empty (core) API group the
composed API string is the bare version alone. The code composes
`fmt.Sprintf("%v/%v", ...)` unconditionally, so the empty group yields
`"/v1"`, not `"v1"`. -/
theorem c4_counterexample :
    composeAPI "" "v1" = "/v1" ∧ composeAPI "" "v1" ≠ "v1" :=
  ⟨rfl, by decide⟩

/-- C4 amended: the composed string is always the two-part `group/version`
form; with an empty group it is `"/" ++ version`, so under a core-group rule a
document can match only if its `apiVersion` field carries the slash-prefixed
form — a document carrying the bare core-group version string never matches. -/
theorem c4_amended_core_group_slash (m : Mapping) (d : Doc)
    (hg : m.deprecatedAPI.group = "")
    (hm : matchesDoc d (depString m) m.deprecatedAPI.kind = true) :
    getStr d "apiVersion" = some ("/" ++ m.deprecatedAPI.version) ∧
    getStr d "apiVersion" ≠ some m.deprecatedAPI.version := by
  have hav : getStr d "apiVersion" = some (depString m) := by
    have := (Bool.and_eq_true _ _).mp hm |>.1
    simpa using this
  have hdep : depString m = "/" ++ m.deprecatedAPI.version := by
    unfold depString composeAPI
    rw [hg]
    simp
  refine ⟨by rw [hav, hdep], ?_⟩
  rw [hav, hdep]
  intro h
  have hlen := congrArg String.length (Option.some.inj h)
  rw [String.length_append, show ("/" : String).length = 1 from rfl] at hlen
  omega

/-- C4 witness: a document carrying the slash-prefixed core-group form matches
the core-group rule, and its `apiVersion` is `"/v1"`, not `"v1"`. -/
theorem c4_amended_witness :
    getStr [("apiVersion", Value.vstr "/v1"), ("kind", Value.vstr "ConfigMap")]
        "apiVersion" = some ("/" ++ "v1") ∧
    getStr [("apiVersion", Value.vstr "/v1"), ("kind", Value.vstr "ConfigMap")]
        "apiVersion" ≠ some "v1" :=
  c4_amended_core_group_slash ⟨⟨"", "v1", "ConfigMap"⟩, ⟨"", "", ""⟩, "v1.16", ""⟩
    [("apiVersion", Value.vstr "/v1"), ("kind", Value.vstr "ConfigMap")]
    rfl (by rfl)

/-- C6: the claim says any non-EOF per-document decode failure makes
`decodeManifests` return an error with no partial output. The loop checks the
nil/empty-value `continue` *before* the `err != nil` return, and a failing
`Decode` leaves the value nil — so the failure is silently skipped and the
surrounding documents are returned without error (while, as the claim states
correctly, empty documents are skipped and end-of-stream terminates
normally). -/
theorem c6_decode_error_swallowed :
    decodeManifests [.ok (some docP), .failed, .ok none, .ok (some docQ)]
      = .ok [docP, docQ] :=
  rfl

/-- C8: the claim says the new release record is constructed separately, so
the record referenced as the old release changes only its status (to
`superseded`). But `var newRelease = origRelease` copies the pointer: after a
successful transition the caller's old-release reference shows the *new*
candidate — version + 1, the new manifest, the upgrade description, the new
timestamp and `deployed` status — not the old fields with `superseded`. -/
theorem c8_alias_mutates_old_record :
    (updateRelease ⟨"my-release", 1, "old-manifest", .deployed, "Install complete", 100⟩
        "new-manifest" false false 200).origRef =
      ⟨"my-release", 2, "new-manifest", .deployed, UpgradeDescription, 200⟩ ∧
    (updateRelease ⟨"my-release", 1, "old-manifest", .deployed, "Install complete", 100⟩
        "new-manifest" false false 200).origRef ≠
      ⟨"my-release", 1, "old-manifest", .superseded, "Install complete", 100⟩ := by
  constructor
  · rfl
  · decide

/-- C7: the transition invokes the store's update (with the old record marked
superseded) before anything else; if update fails, the transition errors and
create is never invoked; if update succeeds and create fails, the error is
surfaced with exactly one update and one create call — no retry, no rollback. -/
theorem c7_transition_order (orig : Release) (mm : String) (uf cf : Bool)
    (now : Nat) :
    (updateRelease orig mm uf cf now).trace.head? =
      some (.update { orig with status := .superseded }) ∧
    (uf = true →
      (updateRelease orig mm uf cf now).err = some .updateFailed ∧
      (updateRelease orig mm uf cf now).trace =
        [.update { orig with status := .superseded }]) ∧
    (uf = false → cf = true →
      (updateRelease orig mm uf cf now).err = some .createFailed ∧
      (updateRelease orig mm uf cf now).trace =
        [.update { orig with status := .superseded },
         .create { orig with
                     status := .deployed
                     manifest := mm
                     description := UpgradeDescription
                     lastDeployed := now
                     version := orig.version + 1 }]) := by
  unfold updateRelease
  rcases uf with _ | _ <;> rcases cf with _ | _ <;>
    simp

/-- C7 witness: a failing update on a concrete release surfaces the error and
produces a single store call. -/
theorem c7_transition_order_witness :
    (updateRelease ⟨"r", 1, "m", .deployed, "d", 0⟩ "m2" true false 7).err
        = some .updateFailed ∧
    (updateRelease ⟨"r", 1, "m", .deployed, "d", 0⟩ "m2" true false 7).trace
        = [.update ⟨"r", 1, "m", .superseded, "d", 0⟩] :=
  (c7_transition_order ⟨"r", 1, "m", .deployed, "d", 0⟩ "m2" true false 7).2.1 rfl

/-- The explicit semantic-version strict order on release (no pre-release tag)
versions: major, then minor, then patch. -/
def versionTripleGt (a b : Semver) : Prop :=
  b.major < a.major ∨
    (a.major = b.major ∧
      (b.minor < a.minor ∨ (a.minor = b.minor ∧ b.patch < a.patch)))

/-- On release versions, the modelled comparison returns `gt` exactly for the
lexicographic major/minor/patch strict order. -/
theorem semverCompare_gt_iff (a b : Semver) (ha : a.pre = none)
    (hb : b.pre = none) :
    semverCompare a b = .gt ↔ versionTripleGt a b := by
  unfold semverCompare natCompare preCompare versionTripleGt
  rw [ha, hb]
  split_ifs <;> simp [Ordering.then] <;> omega

/-- C5: with a valid selected threshold, a rule whose threshold compares
greater than the cluster version is skipped without error and leaves the
state — hence every document — untouched, regardless of content; otherwise
the rule proceeds to its matching body. On release versions, "compares
greater" is exactly strict major/minor/patch precedence, so the rule applies
iff threshold ≤ cluster version. -/
theorem c5_version_gating (m : Mapping) (kv thr : Semver) (st : ReplaceState)
    (hp : parseSemver (thresholdOf m) = some thr) :
    (semverCompare thr kv = .gt → applyMapping kv st m = .ok st) ∧
    (semverCompare thr kv ≠ .gt →
      applyMapping kv st m = applyMappingBody st m) ∧
    (thr.pre = none → kv.pre = none →
      (semverCompare thr kv = .gt ↔ versionTripleGt thr kv)) := by
  refine ⟨fun h => ?_, fun h => ?_,
    fun h1 h2 => semverCompare_gt_iff thr kv h1 h2⟩
  · unfold applyMapping
    rw [hp]
    simp [h]
  · unfold applyMapping
    rw [hp]
    simp [h]

/-- C5 witness: the Scenario B configuration — threshold `v1.16`, cluster
`v1.14.0` — skips the rule and returns the state unchanged. -/
theorem c5_version_gating_witness :
    applyMapping ⟨1, 14, 0, none⟩ (initState [docX]) ruleA2
      = .ok (initState [docX]) :=
  (c5_version_gating ruleA2 ⟨1, 14, 0, none⟩ ⟨1, 16, 0, none⟩ (initState [docX])
    (by rfl)).1 (by decide)

/-- A successful decode never returns an empty document: the loop only
accumulates values that passed the non-empty check. -/
theorem decodeLoop_nonempty (steps : List DecodeStep) (acc docs : List Doc)
    (hacc : ∀ d ∈ acc, d.isEmpty = false)
    (h : decodeLoop steps acc = .ok docs) : ∀ d ∈ docs, d.isEmpty = false := by
  induction steps generalizing acc with
  | nil =>
      have : acc.reverse = docs := by
        simpa [decodeLoop] using h
      intro d hd
      exact hacc d (List.mem_reverse.mp (this ▸ hd))
  | cons s rest ih =>
      cases s with
      | ok v =>
          cases v with
          | none => exact ih acc hacc h
          | some d =>
              by_cases hd : d.isEmpty
              · rw [decodeLoop, if_pos hd] at h
                exact ih acc hacc h
              · rw [decodeLoop, if_neg hd] at h
                refine ih (d :: acc) ?_ h
                intro e he
                rcases List.mem_cons.mp he with rfl | he2
                · exact Bool.eq_false_iff.mpr hd
                · exact hacc e he2
      | failed => exact ih acc hacc h
      | failedWith d =>
          by_cases hd : d.isEmpty
          · rw [decodeLoop, if_pos hd] at h
            exact ih acc hacc h
          · rw [decodeLoop, if_neg hd] at h
            exact absurd h (by simp)

/-- Decoding a stream of successful, non-empty document steps accumulates
exactly those documents in order. -/
theorem decodeLoop_map_ok (docs acc : List Doc)
    (h : ∀ d ∈ docs, d.isEmpty = false) :
    decodeLoop (docs.map fun d => DecodeStep.ok (some d)) acc
      = .ok (acc.reverse ++ docs) := by
  induction docs generalizing acc with
  | nil => simp [decodeLoop]
  | cons d rest ih =>
      simp only [List.map_cons]
      rw [decodeLoop, if_neg (by simp [h d (by simp)]),
        ih (d :: acc) (fun e he => h e (by simp [he]))]
      simp

/-- C9: for any decoder stream that decodes successfully, re-parsing the
encoded output of that decode yields the same document sequence — the decode
→ encode → decode round trip is the identity on the first decode result
(document order and contents preserved; the documents a successful decode
returns are all non-empty, so none is skipped on the second decode). -/
theorem c9_roundtrip (steps : List DecodeStep) (docs : List Doc)
    (h : decodeManifests steps = .ok docs) :
    decodeManifests (reparseEncodedManifests docs) = .ok docs := by
  have hne := decodeLoop_nonempty steps [] docs (by simp) h
  unfold decodeManifests reparseEncodedManifests
  rw [decodeLoop_map_ok docs [] hne]
  simp

/-- C9 witness: a two-document stream with a stray empty document decodes to
`[docP, docQ]`, and the re-parse of the encoded result returns it unchanged. -/
theorem c9_roundtrip_witness :
    decodeManifests (reparseEncodedManifests [docP, docQ]) = .ok [docP, docQ] :=
  c9_roundtrip [.ok (some docP), .ok none, .ok (some docQ)] [docP, docQ] rfl

/-! ### Helper lemmas for the rewrite-only characterization -/

/-- Writing a slot's own content back is the identity. -/
theorem set_getD_self {α : Type} (l : List α) (i : Nat) (dflt : α) :
    l.set i (l.getD i dflt) = l := by
  induction l generalizing i with
  | nil => rfl
  | cons a t ih =>
      cases i with
      | zero => rfl
      | succ j =>
          show a :: t.set j (t.getD j dflt) = a :: t
          rw [ih j]

/-- Reading an appended list at the length of the prefix reads the suffix. -/
theorem getD_append_of_length {α : Type} (xs ys : List α) (k : Nat)
    (hx : xs.length = k) (dflt : α) :
    (xs ++ ys).getD k dflt = ys.getD 0 dflt := by
  subst hx
  induction xs with
  | nil => rfl
  | cons a t ih =>
      show (t ++ ys).getD t.length dflt = ys.getD 0 dflt
      exact ih

/-- Writing an appended list at the length of the prefix writes the suffix. -/
theorem set_append_of_length {α : Type} (xs ys : List α) (k : Nat)
    (hx : xs.length = k) (v : α) :
    (xs ++ ys).set k v = xs ++ ys.set 0 v := by
  subst hx
  induction xs with
  | nil => rfl
  | cons a t ih =>
      show a :: (t ++ ys).set t.length v = a :: (t ++ ys.set 0 v)
      rw [ih]

/-- Folding a per-slot update over the first `k` indices maps the update over
the first `k` slots. -/
theorem foldl_set_range {α : Type} (F : α → α) (dflt : α) :
    ∀ (k : Nat) (l : List α), k ≤ l.length →
      (List.range k).foldl (fun h i => h.set i (F (h.getD i dflt))) l
        = (l.take k).map F ++ l.drop k := by
  intro k
  induction k with
  | zero => intro l _; simp
  | succ k ih =>
      intro l hk
      have hk1 : k < l.length := hk
      rw [List.range_succ, List.foldl_append, ih l (Nat.le_of_lt hk1)]
      simp only [List.foldl_cons, List.foldl_nil]
      have hlen : ((l.take k).map F).length = k := by
        simp [List.length_take, Nat.min_eq_left (Nat.le_of_lt hk1)]
      have hdrop : l.drop k = l[k] :: l.drop (k + 1) :=
        List.drop_eq_getElem_cons hk1
      have hget : ((l.take k).map F ++ l.drop k).getD k dflt = l[k] := by
        rw [getD_append_of_length _ _ k hlen, hdrop]
        rfl
      rw [hget, set_append_of_length _ _ k hlen, hdrop]
      show List.map F (l.take k) ++ F l[k] :: l.drop (k + 1)
          = List.map F (l.take (k + 1)) ++ l.drop (k + 1)
      rw [List.take_succ, List.getElem?_eq_getElem hk1, List.map_append,
        List.append_assoc]
      rfl

/-- The rewrite loop over all live slots is the per-document rewrite mapped
over the heap. -/
theorem rewriteHeap_eq_map (api kind w : String) (h : List Doc) :
    rewriteHeap api kind w h (List.range h.length)
      = h.map fun d =>
          if matchesDoc d api kind then docSet d "apiVersion" (.vstr w) else d := by
  unfold rewriteHeap
  have hfun :
      (fun (h2 : List Doc) (id : Nat) =>
        if matchesDoc (h2.getD id []) api kind then
          h2.set id (docSet (h2.getD id []) "apiVersion" (.vstr w))
        else h2)
      = (fun (h2 : List Doc) (id : Nat) =>
          h2.set id ((fun d =>
            if matchesDoc d api kind then docSet d "apiVersion" (.vstr w)
            else d) (h2.getD id []))) := by
    funext h2 id
    by_cases hm : matchesDoc (h2[id]?.getD []) api kind = true
    · simp [hm]
    · simp [hm]
      rw [← List.getD_eq_getElem?_getD]
      exact (set_getD_self h2 id []).symm
  rw [hfun,
    foldl_set_range
      (fun d => if matchesDoc d api kind then docSet d "apiVersion" (.vstr w) else d)
      [] h.length h (Nat.le_refl _),
    List.take_length, List.drop_length, List.append_nil]

/-- `(range n).take n = range n`. -/
theorem take_range_self (n : Nat) : (List.range n).take n = List.range n :=
  List.take_of_length_le (by simp)

/-- Dereferencing every index of a list through itself is the identity. -/
theorem map_getD_range (h : List Doc) :
    (List.range h.length).map (fun i => h.getD i []) = h := by
  apply List.ext_getElem
  · simp
  · intro i h1 h2
    rw [List.getElem_map, List.getElem_range]
    exact List.getD_eq_getElem _ _ h2

/-- The returned slice of a fresh state is the state's document list. -/
theorem modifiedView_initState (h : List Doc) :
    modifiedView (initState h) = h := by
  unfold modifiedView initState
  rw [take_range_self, map_getD_range]

/-- Binding a success just applies the continuation. -/
theorem except_ok_bind {ε α β : Type} (a : α) (f : α → Except ε β) :
    (Except.ok a >>= f : Except ε β) = f a := rfl

/-- Binding an error short-circuits. -/
theorem except_error_bind {ε α β : Type} (e : ε) (f : α → Except ε β) :
    ((Except.error e : Except ε α) >>= f) = Except.error e := rfl

/-- A rewrite-shaped rule with a valid threshold maps its per-document step
over the documents and leaves the slice structure untouched. -/
theorem applyMapping_rewriteOnly (kv : Semver) (m : Mapping) (h : List Doc)
    (hk : m.newAPI.kind ≠ "") (hg : m.newAPI.group ≠ "")
    (hv : (parseSemver (thresholdOf m)).isSome) :
    applyMapping kv (initState h) m = .ok (initState (h.map (stepDoc kv m))) := by
  obtain ⟨thr, hthr⟩ := Option.isSome_iff_exists.mp hv
  have hstep : ∀ d, stepDoc kv m d =
      if semverCompare thr kv = .gt then d
      else if matchesDoc d (depString m) m.deprecatedAPI.kind then
        docSet d "apiVersion" (.vstr (newString m))
      else d := by
    intro d
    unfold stepDoc
    rw [hthr]
  have happ : applyMapping kv (initState h) m =
      if semverCompare thr kv = .gt then Except.ok (initState h)
      else applyMappingBody (initState h) m := by
    unfold applyMapping
    rw [hthr]
  rw [happ]
  by_cases hgt : semverCompare thr kv = .gt
  · rw [if_pos hgt]
    have hmapid : h.map (stepDoc kv m) = h := by
      rw [show stepDoc kv m = (fun d => d) from
        funext fun d => by rw [hstep d, if_pos hgt]]
      exact List.map_id' h
    rw [hmapid]
  · rw [if_neg hgt]
    unfold applyMappingBody
    rw [if_neg (by simp [hk, hg])]
    simp only [initState]
    rw [take_range_self, rewriteHeap_eq_map]
    have hmap : (h.map fun d =>
        if matchesDoc d (depString m) m.deprecatedAPI.kind then
          docSet d "apiVersion" (.vstr (newString m)) else d)
        = h.map (stepDoc kv m) :=
      List.map_congr_left fun d _ => by rw [hstep d, if_neg hgt]
    rw [hmap]
    simp

/-- A rewrite-only rule set with valid thresholds folds to the state carrying
the per-document pass over the original documents. -/
theorem foldlM_applyMapping_rewriteOnly (kv : Semver) (rules : List Mapping)
    (hro : RewriteOnly rules) (hv : ValidThresholds rules) (h : List Doc) :
    rules.foldlM (applyMapping kv) (initState h)
      = .ok (initState (h.map (passDoc kv rules))) := by
  induction rules generalizing h with
  | nil =>
      show Except.ok (initState h) = .ok (initState (h.map (passDoc kv [])))
      rw [show passDoc kv [] = fun d => d from rfl, List.map_id']
  | cons m rest ih =>
      rw [List.foldlM_cons,
        applyMapping_rewriteOnly kv m h (hro m (List.mem_cons_self m rest)).1
          (hro m (List.mem_cons_self m rest)).2 (hv m (List.mem_cons_self m rest)),
        except_ok_bind,
        ih (fun r hr => hro r (List.mem_cons_of_mem m hr))
          (fun r hr => hv r (List.mem_cons_of_mem m hr)),
        List.map_map]
      rfl

/-- A successful fold of the rules implies every rule's threshold parsed. -/
theorem foldlM_ok_validThresholds (kv : Semver) (rules : List Mapping)
    (st0 st1 : ReplaceState)
    (h : rules.foldlM (applyMapping kv) st0 = .ok st1) :
    ValidThresholds rules := by
  induction rules generalizing st0 with
  | nil => intro r hr; exact absurd hr (List.not_mem_nil r)
  | cons m rest ih =>
      rw [List.foldlM_cons] at h
      cases ha : applyMapping kv st0 m with
      | error e =>
          rw [ha, except_error_bind] at h
          exact absurd h (by simp)
      | ok stm =>
          rw [ha, except_ok_bind] at h
          intro r hr
          rcases List.mem_cons.mp hr with rfl | hr2
          · unfold applyMapping at ha
            cases hp : parseSemver (thresholdOf r) with
            | none => rw [hp] at ha; exact absurd ha (by simp)
            | some thr => simp [hp]
          · exact ih stm h r hr2

/-- Under a rewrite-only rule set with valid thresholds, the engine's output
is the per-document pass mapped over the input sequence. -/
theorem finalModifiedDocs_rewriteOnly (docs : List Doc) (rules : List Mapping)
    (v : String) (kv : Semver) (hv : parseSemver v = some kv)
    (hro : RewriteOnly rules) (hval : ValidThresholds rules) :
    finalModifiedDocs docs rules v = some (docs.map (passDoc kv rules)) := by
  have hrepl : ReplaceManifestUnSupportedAPIs docs rules v
      = .ok (initState (docs.map (passDoc kv rules))) := by
    unfold ReplaceManifestUnSupportedAPIs
    rw [hv]
    exact foldlM_applyMapping_rewriteOnly kv rules hro hval docs
  unfold finalModifiedDocs
  rw [hrepl]
  show some (modifiedView (initState (docs.map (passDoc kv rules)))) = _
  rw [modifiedView_initState]

/-- A successful engine run implies every rule's threshold parsed. -/
theorem finalModifiedDocs_ok_valid (docs out : List Doc)
    (rules : List Mapping) (v : String) (kv : Semver)
    (hv : parseSemver v = some kv)
    (h1 : finalModifiedDocs docs rules v = some out) :
    ValidThresholds rules := by
  unfold finalModifiedDocs at h1
  cases hrep : ReplaceManifestUnSupportedAPIs docs rules v with
  | error e =>
      rw [hrep] at h1
      have h2 : (none : Option (List Doc)) = some out := h1
      exact Option.noConfusion h2
  | ok st =>
      unfold ReplaceManifestUnSupportedAPIs at hrep
      rw [hv] at hrep
      exact foldlM_ok_validThresholds kv rules (initState docs) st hrep

/-! ### Per-document fixity under no-rematch rule sets -/

/-- Looking up the key just written finds the written value. -/
theorem docLookup_docSet_self (d : Doc) (k : String) (v : Value) :
    docLookup (docSet d k v) k = some v := by
  induction d with
  | nil => simp [docSet, docLookup]
  | cons p t ih =>
      obtain ⟨k1, v1⟩ := p
      by_cases hk : k1 = k
      · simp [docSet, hk, docLookup]
      · simp [docSet, hk, docLookup, ih]

/-- Writing one key leaves every other key's lookup unchanged. -/
theorem docLookup_docSet_other (d : Doc) (k k2 : String) (v : Value)
    (hne : k2 ≠ k) :
    docLookup (docSet d k v) k2 = docLookup d k2 := by
  induction d with
  | nil => simp [docSet, docLookup, hne.symm]
  | cons p t ih =>
      obtain ⟨k1, v1⟩ := p
      by_cases hk : k1 = k
      · subst hk
        simp [docSet, docLookup, hne.symm]
      · by_cases hk2 : k1 = k2
        · subst hk2
          simp [docSet, docLookup, hk]
        · simp [docSet, hk, docLookup, hk2, ih]

/-- The string view of the key just written. -/
theorem getStr_docSet_self (d : Doc) (k s : String) :
    getStr (docSet d k (.vstr s)) k = some s := by
  unfold getStr
  rw [docLookup_docSet_self]

/-- The string view of any other key after a write. -/
theorem getStr_docSet_other (d : Doc) (k k2 : String) (v : Value)
    (hne : k2 ≠ k) :
    getStr (docSet d k v) k2 = getStr d k2 := by
  unfold getStr
  rw [docLookup_docSet_other d k k2 v hne]

/-- Unfolding the Boolean match into the two field equations. -/
theorem matchesDoc_iff (d : Doc) (a k : String) :
    matchesDoc d a k = true ↔
      (getStr d "apiVersion" = some a ∧ getStr d "kind" = some k) := by
  simp [matchesDoc]

/-- A step either leaves the document unchanged or stamps the rule's rewritten
API string on it (keeping the rule's deprecated kind, which the document
matched). -/
theorem stepDoc_cases (kv : Semver) (m : Mapping) (d : Doc) :
    stepDoc kv m d = d ∨
      (getStr (stepDoc kv m d) "apiVersion" = some (newString m) ∧
       getStr (stepDoc kv m d) "kind" = some m.deprecatedAPI.kind) := by
  cases hthr : parseSemver (thresholdOf m) with
  | none =>
      left
      unfold stepDoc
      rw [hthr]
  | some thr =>
      have hs : stepDoc kv m d =
          if semverCompare thr kv = .gt then d
          else if matchesDoc d (depString m) m.deprecatedAPI.kind then
            docSet d "apiVersion" (.vstr (newString m))
          else d := by
        unfold stepDoc
        rw [hthr]
      by_cases hgt : semverCompare thr kv = .gt
      · left
        rw [hs, if_pos hgt]
      · by_cases hm : matchesDoc d (depString m) m.deprecatedAPI.kind = true
        · right
          rw [hs, if_neg hgt, if_pos hm]
          refine ⟨getStr_docSet_self d "apiVersion" (newString m), ?_⟩
          rw [getStr_docSet_other d "apiVersion" "kind" _ (by decide)]
          exact ((matchesDoc_iff d (depString m) m.deprecatedAPI.kind).mp hm).2
        · left
          rw [hs, if_neg hgt, if_neg hm]

/-- A rule that does not match a document leaves it unchanged. -/
theorem stepDoc_eq_self_of_not_matches (kv : Semver) (m : Mapping) (d : Doc)
    (hm : ¬ matchesDoc d (depString m) m.deprecatedAPI.kind = true) :
    stepDoc kv m d = d := by
  cases hthr : parseSemver (thresholdOf m) with
  | none =>
      unfold stepDoc
      rw [hthr]
  | some thr =>
      have hs : stepDoc kv m d =
          if semverCompare thr kv = .gt then d
          else if matchesDoc d (depString m) m.deprecatedAPI.kind then
            docSet d "apiVersion" (.vstr (newString m))
          else d := by
        unfold stepDoc
        rw [hthr]
      by_cases hgt : semverCompare thr kv = .gt
      · rw [hs, if_pos hgt]
      · rw [hs, if_neg hgt, if_neg hm]

/-- After folding any sublist of the rules over a document, either some rule
has stamped its rewritten API string on the result, or the document came
through unchanged with every rule of the sublist leaving it alone. -/
theorem foldl_stepDoc_post (kv : Semver) (rules : List Mapping) :
    ∀ (sub : List Mapping), (∀ r ∈ sub, r ∈ rules) → ∀ d : Doc,
      (∃ rs, rs ∈ rules ∧
        getStr (sub.foldl (fun d m => stepDoc kv m d) d) "apiVersion"
          = some (newString rs) ∧
        getStr (sub.foldl (fun d m => stepDoc kv m d) d) "kind"
          = some rs.deprecatedAPI.kind) ∨
      (sub.foldl (fun d m => stepDoc kv m d) d = d ∧
        ∀ r ∈ sub, stepDoc kv r d = d) := by
  intro sub
  induction sub with
  | nil =>
      intro _ d
      right
      exact ⟨rfl, fun r hr => absurd hr (List.not_mem_nil r)⟩
  | cons m rest ih =>
      intro hsub d
      rw [List.foldl_cons]
      rcases stepDoc_cases kv m d with hid | ⟨hav, hkd⟩
      · rw [hid]
        rcases ih (fun r hr => hsub r (List.mem_cons_of_mem m hr)) d with
          hL | ⟨heq, hfix⟩
        · left; exact hL
        · right
          refine ⟨heq, fun r hr => ?_⟩
          rcases List.mem_cons.mp hr with rfl | hr2
          · exact hid
          · exact hfix r hr2
      · rcases ih (fun r hr => hsub r (List.mem_cons_of_mem m hr))
          (stepDoc kv m d) with hL | ⟨heq, _⟩
        · left; exact hL
        · left
          exact ⟨m, hsub m (List.mem_cons_self m rest),
            by rw [heq]; exact hav, by rw [heq]; exact hkd⟩

/-- Under a no-rematch rule set, a full pass leaves a document on which no
rule acts any more. -/
theorem passDoc_fixed (kv : Semver) (rules : List Mapping)
    (hnr : NoRematch rules) (d : Doc) :
    ruleFixes kv rules (passDoc kv rules d) := by
  rcases foldl_stepDoc_post kv rules rules (fun r hr => hr) d with
    ⟨rs, hrs, hav, hkd⟩ | ⟨heq, hfix⟩
  · intro r hr
    apply stepDoc_eq_self_of_not_matches
    intro hm
    have hmm := (matchesDoc_iff _ _ _).mp hm
    have h1 : newString rs = depString r :=
      Option.some.inj (hav.symm.trans hmm.1)
    have h2 : rs.deprecatedAPI.kind = r.deprecatedAPI.kind :=
      Option.some.inj (hkd.symm.trans hmm.2)
    exact hnr rs hrs r hr ⟨h1, h2⟩
  · intro r hr
    have hpd : passDoc kv rules d = d := heq
    rw [hpd]
    exact hfix r hr

/-- A document every rule leaves alone comes through a full pass unchanged. -/
theorem passDoc_id_of_fixes (kv : Semver) (rules : List Mapping) (d : Doc) :
    ruleFixes kv rules d → passDoc kv rules d = d := by
  induction rules with
  | nil => intro _; rfl
  | cons m rest ih =>
      intro h
      unfold passDoc
      rw [List.foldl_cons, h m (List.mem_cons_self m rest)]
      exact ih fun r hr => h r (List.mem_cons_of_mem m hr)

/-- C10 counterexample: the claim asserts idempotence for *every* rule set
and document sequence. With the chained rule set `[groupb→groupc,
groupa→groupb]` (rules applied in file order, a later rule seeing earlier
rules' effects), a `groupa/v1` document becomes `groupb/v1` after the first
pass, and the second pass rewrites it further to `groupc/v1`: the second
pass's output differs from its input. -/
theorem c10_counterexample :
    finalModifiedDocs [docA] chainRules "v1.18.0" = some [docB] ∧
    finalModifiedDocs [docB] chainRules "v1.18.0" = some [docC] ∧
    finalModifiedDocs [docB] chainRules "v1.18.0" ≠ some [docB] := by
  refine ⟨rfl, rfl, fun h => ?_⟩
  have h1 : [docC] = [docB] :=
    Option.some.inj
      ((show finalModifiedDocs [docB] chainRules "v1.18.0" = some [docC] from
        rfl).symm.trans h)
  have h2 : docsBeq [docC] [docC] = docsBeq [docC] [docB] :=
    congrArg (docsBeq [docC]) h1
  have h3 : (true : Bool) = false := h2
  exact Bool.noConfusion h3

/-- C10 amended: rule application is idempotent for rewrite-only rule sets
(every rule's `newAPI` kind and group non-empty) in which no rule's rewritten
API string and kind coincide with any rule's deprecated API string and kind:
whenever the first pass succeeds, running the full rule set again on its
output succeeds and returns that output unchanged. (As the counterexample
shows, chained rule sets — and, by the C2 behaviour, removal rules with
adjacent matches — escape the claimed reasoning that a rewritten `apiVersion`
matches no further rule.) -/
theorem c10_amended_idempotent (rules : List Mapping) (docs out : List Doc)
    (v : String) (hro : RewriteOnly rules) (hnr : NoRematch rules)
    (h1 : finalModifiedDocs docs rules v = some out) :
    finalModifiedDocs out rules v = some out := by
  cases hv : parseSemver v with
  | none =>
      have hn : finalModifiedDocs docs rules v = none := by
        unfold finalModifiedDocs ReplaceManifestUnSupportedAPIs
        rw [hv]
      rw [hn] at h1
      exact Option.noConfusion h1
  | some kv =>
      have hval : ValidThresholds rules :=
        finalModifiedDocs_ok_valid docs out rules v kv hv h1
      have hpass1 := finalModifiedDocs_rewriteOnly docs rules v kv hv hro hval
      have hout : docs.map (passDoc kv rules) = out :=
        Option.some.inj (hpass1.symm.trans h1)
      rw [finalModifiedDocs_rewriteOnly out rules v kv hv hro hval]
      congr 1
      rw [← hout, List.map_map]
      exact List.map_congr_left fun d _ =>
        passDoc_id_of_fixes kv rules (passDoc kv rules d)
          (passDoc_fixed kv rules hnr d)

/-- C10 witness: Scenario A's rule alone is rewrite-only and rematch-free;
after mapping `docX` to `docXmapped`, a second full pass returns
`[docXmapped]` unchanged. -/
theorem c10_amended_idempotent_witness :
    finalModifiedDocs [docXmapped] [ruleA2] "v1.18.0" = some [docXmapped] :=
  c10_amended_idempotent [ruleA2] [docX] [docXmapped] "v1.18.0"
    (by unfold RewriteOnly; decide) (by unfold NoRematch; decide) rfl
